import Mathlib

/-!
# Verification of the forward-reader message extractor

A shallow embedding of `src/main.py` of `astrbot_plugin_forward_reader`:
the recursive forward-message content extractor
(`_extract_content_recursively`, lines 26-88), its caller
(`_extract_forward_content`, lines 90-112), and the legacy-card text
extraction embedded in `modify_llm_request` (lines 151-178).

The Python code works on dynamically typed JSON-like data (dicts, lists,
strings, numbers, booleans, None).  We model those values by the
inductive type `PyVal`, Python `dict.get` / truthiness / `str.strip` /
`str.replace` by explicit functions, and the places where the Python
code would raise (`AttributeError` on `.get` of a non-dict,
`TypeError` in `"".join`) by an `Except PyErr` result.

`json.loads` is abstracted as a parameter `decode : String → Option PyVal`
(`some v` = successful decode to `v`, `none` = `json.JSONDecodeError`);
concrete theorems instantiate it with concrete functions.

The recursion of `_extract_content_recursively` is unbounded in the
source (it recurses into arbitrarily nested `forward` segments).  To
obtain a total Lean function we add a `fuel : Nat` argument that is
consumed only when recursing into a nested forward; `fuel` is a
modelling device absent from the source, and the theorems either
quantify over it or exhibit, for each nesting depth, a fuel value on
which extraction completes.
-/

/-- A Python/JSON-like runtime value, as handled by `main.py`.
(Floats do not occur in the modelled code paths and are omitted.) -/
inductive PyVal where
  | none : PyVal
  | bool : Bool → PyVal
  | num : Int → PyVal
  | str : String → PyVal
  | list : List PyVal → PyVal
  | dict : List (String × PyVal) → PyVal

/-- The Python exceptions that the modelled code can raise, plus the
artificial fuel-exhaustion marker (see the file header). -/
inductive PyErr where
  | attrError : PyErr
  | typeError : PyErr
  | fuelExhausted : PyErr
deriving Repr, DecidableEq, Inhabited

/-- First binding of a key in a dict's field list (Python dict keys are
unique, so first-match lookup is exact). -/
def lookupField : List (String × PyVal) → String → Option PyVal
  | [], _ => Option.none
  | (k, v) :: rest, key => if k = key then some v else lookupField rest key

/-- Python `receiver.get(key, default)`: returns the stored value (even
if it is `None`), the default when the key is absent, and raises
`AttributeError` when the receiver is not a dict. -/
def pyGet (v : PyVal) (key : String) (dflt : PyVal) : Except PyErr PyVal :=
  match v with
  | .dict fields => .ok ((lookupField fields key).getD dflt)
  | _ => .error .attrError

/-- Python truthiness of the modelled values. -/
def pyTruthy : PyVal → Bool
  | .none => false
  | .bool b => b
  | .num n => n != 0
  | .str s => !(s == "")
  | .list xs => !xs.isEmpty
  | .dict fields => !fields.isEmpty

/-- Python `v == "lit"` for a string literal: true only for an equal
string (no other modelled value compares equal to a `str`). -/
def pyEqStr : PyVal → String → Bool
  | .str t, s => t == s
  | _, _ => false

/-- Python `v == n` for an int literal; Python booleans compare equal to
their numeric value (`True == 1`). -/
def pyEqInt : PyVal → Int → Bool
  | .num m, n => m == n
  | .bool b, n => (if b then (1 : Int) else 0) == n
  | _, _ => false

/-- The whitespace stripped by Python `str.strip()` (the ASCII part;
exotic Unicode space characters do not occur in the modelled data). -/
def isPySpace (c : Char) : Bool :=
  c == ' ' || c == '\t' || c == '\n' || c == '\r' || c == '\x0b' || c == '\x0c'

/-- Python `s.strip()`: remove leading and trailing whitespace. -/
def pyStrip (s : String) : String :=
  String.mk (((s.data.dropWhile isPySpace).reverse.dropWhile isPySpace).reverse)

/-- Whether `pat` is a prefix of `s` (on character lists). -/
def listStartsWith : List Char → List Char → Bool
  | [], _ => true
  | _ :: _, [] => false
  | p :: ps, c :: cs => p == c && listStartsWith ps cs

/-- Remove every non-overlapping occurrence of `pat`, scanning left to
right (the semantics of Python `s.replace(pat, "")`).  The `Nat`
argument is a fuel bounded below by the list length, so the `0` case
with a nonempty list is never reached from `pyRemoveAll`. -/
def removeOccsAux (pat : List Char) : Nat → List Char → List Char
  | _, [] => []
  | 0, s => s
  | fuel + 1, c :: cs =>
    if pat ≠ [] ∧ listStartsWith pat (c :: cs) then
      removeOccsAux pat fuel (List.drop (pat.length - 1) cs)
    else
      c :: removeOccsAux pat fuel cs

/-- Python `s.replace(pat, "")`. -/
def pyRemoveAll (s pat : String) : String :=
  String.mk (removeOccsAux pat.data s.data.length s.data)

/-- Python `"".join(parts)` over the accumulated segment texts: succeeds
with the concatenation when every part is a string, and raises
`TypeError` otherwise (line 85 of `main.py`). -/
def joinParts : List PyVal → Except PyErr String
  | [] => .ok ""
  | .str s :: rest =>
    match joinParts rest with
    | .ok t => .ok (s ++ t)
    | .error e => .error e
  | _ :: _ => .error .typeError

/-- The indentation `"  " * depth` of line 31 of `main.py`. -/
def pyIndent : Nat → String
  | 0 => ""
  | d + 1 => "  " ++ pyIndent d

mutual

/-- Python `repr(v)`-style rendering of the modelled values (used by the
f-string of line 88 only for non-string sender names; string escaping
inside `repr` of a string is not modelled, as no claim reaches it). -/
def pyRepr : PyVal → String
  | .none => "None"
  | .bool true => "True"
  | .bool false => "False"
  | .num n => toString n
  | .str s => "\x27" ++ s ++ "\x27"
  | .list xs => "[" ++ pyReprL xs ++ "]"
  | .dict fs => "\x7b" ++ pyReprD fs ++ "\x7d"

/-- Comma-separated `repr` of list elements. -/
def pyReprL : List PyVal → String
  | [] => ""
  | [x] => pyRepr x
  | x :: y :: rest => pyRepr x ++ ", " ++ pyReprL (y :: rest)

/-- Comma-separated `repr` of dict entries. -/
def pyReprD : List (String × PyVal) → String
  | [] => ""
  | [(k, v)] => "\x27" ++ k ++ "\x27: " ++ pyRepr v
  | (k, v) :: e :: rest => "\x27" ++ k ++ "\x27: " ++ pyRepr v ++ ", " ++ pyReprD (e :: rest)

end

/-- Python `str(v)` as used by the f-string of line 88: a string renders
as itself, anything else through `repr`-style rendering. -/
def pyStr : PyVal → String
  | .str s => s
  | v => pyRepr v

/-- Line 34 of `main.py`:
`sender_name = message_node.get("sender", {}).get("nickname", "未知用户")`. -/
def senderNameOf (node : PyVal) : Except PyErr PyVal :=
  match pyGet node "sender" (.dict []) with
  | .ok sv => pyGet sv "nickname" (.str "未知用户")
  | .error e => .error e

/-- Line 35 of `main.py`:
`raw_content = message_node.get("message") or message_node.get("content", [])`
(Python `or`: the second operand is used when the first is falsy). -/
def rawContentOf (node : PyVal) : Except PyErr PyVal :=
  match pyGet node "message" .none with
  | .ok mv =>
    if pyTruthy mv then .ok mv else pyGet node "content" (.list [])
  | .error e => .error e

/-- Lines 37-48 of `main.py`: normalize `raw_content` into the content
chain.  A list passes through; a string is JSON-decoded — the decoded
value is used only when it is itself a list, and the whole string
becomes a single literal text segment only when decoding *fails*
(`json.JSONDecodeError`); any other value leaves the chain at its
initializer `[]`. -/
def parseContentChain (decode : String → Option PyVal) (raw : PyVal) : List PyVal :=
  match raw with
  | .str s =>
    match decode s with
    | some (.list l) => l
    | some _ => []
    | Option.none => [.dict [("type", .str "text"), ("data", .dict [("text", .str s)])]]
  | .list l => l
  | _ => []

/-- Lines 56-58 of `main.py`: the pure-forward-container check
`len(content_chain) == 1 and content_chain[0].get("type") == "forward"`.
(`[0].get` raises when the single element is not a dict.) -/
def checkOnlyForward : List PyVal → Except PyErr Bool
  | [seg] =>
    match pyGet seg "type" .none with
    | .ok t => .ok (pyEqStr t "forward")
    | .error e => .error e
  | _ => .ok false

/-- Lines 60-81 of `main.py`: the per-segment loop of one node.
`recNodes` is the recursive call used for a valid nested forward list
(supplied by `extractContentRecursively` at one fuel step less); the
state is `(node_text_parts, extracted_texts, image_urls)`. -/
def extractSegsF
    (recNodes : List PyVal → List String → List PyVal → Nat →
      Except PyErr (List String × List PyVal)) :
    List PyVal → List PyVal → List String → List PyVal → Nat →
      Except PyErr (List PyVal × List String × List PyVal)
  | [], parts, texts, imgs, _ => .ok (parts, texts, imgs)
  | seg :: rest, parts, texts, imgs, depth =>
    match seg with
    | .dict _ =>
      match pyGet seg "type" .none with
      | .error e => .error e
      | .ok segType =>
        match pyGet seg "data" (.dict []) with
        | .error e => .error e
        | .ok segData =>
          if pyEqStr segType "text" then
            match pyGet segData "text" (.str "") with
            | .error e => .error e
            | .ok t =>
              extractSegsF recNodes rest
                (if pyTruthy t then parts ++ [t] else parts) texts imgs depth
          else if pyEqStr segType "image" then
            match pyGet segData "url" .none with
            | .error e => .error e
            | .ok url =>
              if pyTruthy url then
                extractSegsF recNodes rest (parts ++ [.str "[图片]"]) texts
                  (imgs ++ [url]) depth
              else
                extractSegsF recNodes rest parts texts imgs depth
          else if pyEqStr segType "forward" then
            match pyGet segData "content" .none with
            | .error e => .error e
            | .ok nested =>
              match nested with
              | .list nestedNodes =>
                match recNodes nestedNodes texts imgs (depth + 1) with
                | .error e => .error e
                | .ok (texts1, imgs1) =>
                  extractSegsF recNodes rest parts texts1 imgs1 depth
              | _ =>
                extractSegsF recNodes rest
                  (parts ++ [.str "[转发消息内容缺失或格式错误]"]) texts imgs depth
          else
            extractSegsF recNodes rest parts texts imgs depth
    | _ => extractSegsF recNodes rest parts texts imgs depth

/-- Lines 33-88 of `main.py`: the per-node loop.  For each node: resolve
the sender name, normalize the content chain, run the pure-forward
check, run the segment loop (`recSegs`), join and strip the node's text
parts, and append one transcript line when the stripped text is
non-empty and the node is not a pure forward container. -/
def extractNodesGo
    (recSegs : List PyVal → List PyVal → List String → List PyVal → Nat →
      Except PyErr (List PyVal × List String × List PyVal))
    (decode : String → Option PyVal) :
    List PyVal → List String → List PyVal → Nat →
      Except PyErr (List String × List PyVal)
  | [], texts, imgs, _ => .ok (texts, imgs)
  | node :: rest, texts, imgs, depth =>
    match senderNameOf node with
    | .error e => .error e
    | .ok senderName =>
      match rawContentOf node with
      | .error e => .error e
      | .ok raw =>
        match checkOnlyForward (parseContentChain decode raw) with
        | .error e => .error e
        | .ok hasOnly =>
          match recSegs (parseContentChain decode raw) [] texts imgs depth with
          | .error e => .error e
          | .ok (parts, texts1, imgs1) =>
            match joinParts parts with
            | .error e => .error e
            | .ok joined =>
              extractNodesGo recSegs decode rest
                (if pyStrip joined ≠ "" ∧ hasOnly = false then
                  texts1 ++
                    [pyIndent depth ++ pyStr senderName ++ ": " ++ pyStrip joined]
                 else texts1)
                imgs1 depth

/-- `_extract_content_recursively` (lines 26-88 of `main.py`), with the
fuel discipline of the file header: one unit of fuel is consumed for
each level of nested-forward recursion. -/
def extractContentRecursively (decode : String → Option PyVal) :
    Nat → List PyVal → List String → List PyVal → Nat →
      Except PyErr (List String × List PyVal)
  | 0, _, _, _, _ => .error .fuelExhausted
  | fuel + 1, nodes, texts, imgs, depth =>
    extractNodesGo (extractSegsF (extractContentRecursively decode fuel)) decode
      nodes texts imgs depth

/-- Lines 95-110 of `main.py`: `_extract_forward_content` starts the
recursive extraction with fresh empty accumulators at depth 0. -/
def extractForwardContent (decode : String → Option PyVal) (fuel : Nat)
    (nodes : List PyVal) : Except PyErr (List String × List PyVal) :=
  extractContentRecursively decode fuel nodes [] [] 0

/-! ## The legacy-card path (lines 151-178 of `main.py`) -/

/-- Line 157, first conjunct: `inner_json.get("app") == "com.tencent.multimsg"`.
A non-dict payload raises `AttributeError` in Python; that exception is
caught by the surrounding `except` handlers with nothing extracted, so
it collapses to a non-match here. -/
def cardAppMatches (j : PyVal) : Bool :=
  match j with
  | .dict fields => pyEqStr ((lookupField fields "app").getD .none) "com.tencent.multimsg"
  | _ => false

/-- Line 157, second conjunct:
`inner_json.get("config", {}).get("forward") == 1`.  A non-dict `config`
raises `AttributeError`, caught outside the loop with nothing
extracted, so it collapses to a non-match. -/
def cardForwardFlagMatches (j : PyVal) : Bool :=
  match j with
  | .dict fields =>
    match (lookupField fields "config").getD (.dict []) with
    | .dict cfg => pyEqInt ((lookupField cfg "forward").getD .none) 1
    | _ => false
  | _ => false

/-- Line 157: the full legacy-card recognition condition. -/
def isMultiMsgCard (j : PyVal) : Bool :=
  cardAppMatches j && cardForwardFlagMatches j

/-- Line 158: `inner_json.get("meta", {}).get("detail", {}).get("news", [])`.
A non-dict link in the chain raises `AttributeError`, caught outside
with nothing extracted; returning a non-list here makes the caller
extract nothing, the same net outcome. -/
def newsItemsOf (j : PyVal) : PyVal :=
  match j with
  | .dict fields =>
    match (lookupField fields "meta").getD (.dict []) with
    | .dict meta =>
      match (lookupField meta "detail").getD (.dict []) with
      | .dict detail => (lookupField detail "news").getD (.list [])
      | _ => .none
    | _ => .none
  | _ => .none

/-- Lines 159-163: the news-item loop.  For each dict item whose `text`
is a truthy string, append `text.strip().replace("[图片]", "").strip()`
when still non-empty.  A non-dict item, or a truthy non-string text,
raises in Python (`AttributeError` on `.get` / `.strip`); the exception
is caught outside the loop and `json_extracted_texts` keeps what was
already appended, so the model stops and keeps the prefix. -/
def collectNewsTexts : List PyVal → List String
  | [] => []
  | .dict item :: rest =>
    match (lookupField item "text").getD .none with
    | .str s =>
      if s ≠ "" then
        let clean := pyStrip (pyRemoveAll (pyStrip s) "[图片]")
        if clean ≠ "" then clean :: collectNewsTexts rest else collectNewsTexts rest
      else collectNewsTexts rest
    | t => if pyTruthy t then [] else collectNewsTexts rest
  | _ :: _ => []

/-- Lines 151-164: the texts extracted from one decoded legacy-card
payload (`json_extracted_texts`): nothing unless the payload is
recognized as a multi-message forward with a list of news items. -/
def legacyCardTexts (j : PyVal) : List String :=
  if isMultiMsgCard j then
    match newsItemsOf j with
    | .list items => collectNewsTexts items
    | _ => []
  else []

/-- Lines 172-178: when no forward id was found, the reply path uses the
legacy-card texts and the `image_urls` accumulator stays at its
initializer `[]` — the legacy path never contributes an image URL. -/
def legacyCardResult (j : PyVal) : List String × List String :=
  (legacyCardTexts j, [])

/-- Well-formedness of a news-item list under which the Python loop of
lines 159-163 raises nothing: every item is a dict whose `text` field is
a string or falsy. -/
def newsWf : List PyVal → Bool
  | [] => true
  | .dict item :: rest =>
    (match (lookupField item "text").getD .none with
     | .str _ => true
     | t => !pyTruthy t) && newsWf rest
  | _ :: _ => false

/-- The cleaning of one news item as the spec (§4.3 step 4) words it:
if the item carries non-empty text, strip it, remove the literal
`"[图片]"`, strip again, and keep the result only if still non-empty. -/
def specCleanNewsItem (item : PyVal) : Option String :=
  match item with
  | .dict fields =>
    match (lookupField fields "text").getD .none with
    | .str s =>
      if s ≠ "" then
        let c := pyStrip (pyRemoveAll (pyStrip s) "[图片]")
        if c ≠ "" then some c else Option.none
      else Option.none
    | _ => Option.none
  | _ => Option.none

/-! ## A spec-side description of the image traversal (for claim C5)

`specImages` restates, in the spec's words (§3 ImageList, §8), which
image URLs are collected and in which order: a depth-first,
left-to-right walk of the nodes, collecting each truthy image URL at
its position and splicing a nested forward's images in at the position
of the forward segment.  It shares the content normalization
(`parseContentChain`) with the code model and skips the ill-formed
spots where the code raises (those are excluded by the success
hypothesis of the C5 theorem). -/

/-- The content chain of a node, total (`.ok` projection of the code's
sender-independent normalization; ill-formed nodes, on which extraction
raises, give `[]`). -/
def chainOfTotal (decode : String → Option PyVal) (node : PyVal) : List PyVal :=
  match rawContentOf node with
  | .ok raw => parseContentChain decode raw
  | .error _ => []

/-- Spec-side image collection over one segment list; `recImgs` collects
a valid nested forward list. -/
def specImagesSegs (recImgs : List PyVal → List PyVal) : List PyVal → List PyVal
  | [] => []
  | seg :: rest =>
    match seg with
    | .dict fields =>
      if pyEqStr ((lookupField fields "type").getD .none) "image" then
        match (lookupField fields "data").getD (.dict []) with
        | .dict df =>
          let u := (lookupField df "url").getD .none
          if pyTruthy u then u :: specImagesSegs recImgs rest
          else specImagesSegs recImgs rest
        | _ => specImagesSegs recImgs rest
      else if pyEqStr ((lookupField fields "type").getD .none) "forward" then
        match (lookupField fields "data").getD (.dict []) with
        | .dict df =>
          match (lookupField df "content").getD .none with
          | .list ns => recImgs ns ++ specImagesSegs recImgs rest
          | _ => specImagesSegs recImgs rest
        | _ => specImagesSegs recImgs rest
      else specImagesSegs recImgs rest
    | _ => specImagesSegs recImgs rest

/-- Spec-side image collection over a node list: each node's segment
images in order, nodes left to right. -/
def specImagesNodesGo (recS : List PyVal → List PyVal)
    (decode : String → Option PyVal) : List PyVal → List PyVal
  | [] => []
  | node :: rest =>
    recS (chainOfTotal decode node) ++ specImagesNodesGo recS decode rest

/-- Spec-side depth-first image order, fuelled like the code model. -/
def specImages (decode : String → Option PyVal) : Nat → List PyVal → List PyVal
  | 0, _ => []
  | fuel + 1, nodes =>
    specImagesNodesGo (specImagesSegs (specImages decode fuel)) decode nodes

/-! ## The forward-free per-node text pipeline (for claim C6) -/

/-- No segment of the list is a forward segment (non-dict segments are
skipped by the loop and carry no type). -/
def segsNoForward (segs : List PyVal) : Bool :=
  segs.all fun seg =>
    match seg with
    | .dict fields => !(pyEqStr ((lookupField fields "type").getD .none) "forward")
    | _ => true

/-- The node's normalized chain contains no forward segment (ill-formed
nodes, on which extraction raises, are excluded by the C6 success
hypothesis). -/
def chainHasNoForward (decode : String → Option PyVal) (node : PyVal) : Bool :=
  match rawContentOf node with
  | .ok raw => segsNoForward (parseContentChain decode raw)
  | .error _ => true

/-- The `(node_text_parts, image_urls)` contribution of one forward-free
segment list (lines 60-73; the forward branch cannot occur under the C6
hypothesis and is mapped to the error it would never produce). -/
def nodeScanNF : List PyVal → Except PyErr (List PyVal × List PyVal)
  | [] => .ok ([], [])
  | seg :: rest =>
    match seg with
    | .dict _ =>
      match pyGet seg "type" .none with
      | .error e => .error e
      | .ok segType =>
        match pyGet seg "data" (.dict []) with
        | .error e => .error e
        | .ok segData =>
          if pyEqStr segType "text" then
            match pyGet segData "text" (.str "") with
            | .error e => .error e
            | .ok t =>
              match nodeScanNF rest with
              | .error e => .error e
              | .ok PQ => .ok (if pyTruthy t then t :: PQ.1 else PQ.1, PQ.2)
          else if pyEqStr segType "image" then
            match pyGet segData "url" .none with
            | .error e => .error e
            | .ok url =>
              match nodeScanNF rest with
              | .error e => .error e
              | .ok PQ =>
                if pyTruthy url then .ok (.str "[图片]" :: PQ.1, url :: PQ.2)
                else .ok (PQ.1, PQ.2)
          else if pyEqStr segType "forward" then
            .error .attrError
          else
            nodeScanNF rest
    | _ => nodeScanNF rest

/-- The stripped accumulated text of one forward-free node
(`"".join(node_text_parts).strip()` of line 85). -/
def nodeStrippedText (decode : String → Option PyVal) (node : PyVal) :
    Except PyErr String :=
  match rawContentOf node with
  | .error e => .error e
  | .ok raw =>
    match nodeScanNF (parseContentChain decode raw) with
    | .error e => .error e
    | .ok PQ =>
      match joinParts PQ.1 with
      | .error e => .error e
      | .ok j => .ok (pyStrip j)

/-- Whether a forward-free node gets a transcript line: its accumulated
text is non-empty after stripping. -/
def nodeEmits (decode : String → Option PyVal) (node : PyVal) : Bool :=
  match nodeStrippedText decode node with
  | .ok s => s ≠ ""
  | .error _ => false

/-! ## Concrete values used by witnesses and counterexamples -/

/-- A decode function on which every string fails to decode
(models `json.loads` raising `JSONDecodeError`, e.g. on `"hello"`). -/
def decode0 : String → Option PyVal := fun _ => Option.none

/-- A decode function modelling `json.loads` on the input `"42"`:
decoding succeeds and yields the number `42`, which is not a list. -/
def decode42 : String → Option PyVal :=
  fun s => if s = "42" then some (.num 42) else Option.none

/-- A text segment `{"type": "text", "data": {"text": s}}`. -/
def mkTextSeg (s : String) : PyVal :=
  .dict [("type", .str "text"), ("data", .dict [("text", .str s)])]

/-- An image segment `{"type": "image", "data": {"url": u}}`. -/
def mkImageSeg (u : String) : PyVal :=
  .dict [("type", .str "image"), ("data", .dict [("url", .str u)])]

/-- A forward segment `{"type": "forward", "data": {"content": nested}}`. -/
def mkFwdSeg (nested : List PyVal) : PyVal :=
  .dict [("type", .str "forward"), ("data", .dict [("content", .list nested)])]

/-- A message node with the given sender nickname and segment list. -/
def mkNode (sender : String) (segs : List PyVal) : PyVal :=
  .dict [("sender", .dict [("nickname", .str sender)]), ("message", .list segs)]

/-- A pure-forward chain of nodes of the given nesting depth, ending in
a node with text `"x"` (used to refute any recursion bound, claim C2). -/
def deepChain : Nat → PyVal
  | 0 => mkNode "S" [mkTextSeg "x"]
  | d + 1 => mkNode "S" [mkFwdSeg [deepChain d]]

/-- The transcript line format of line 88 of `main.py`:
`f"{indent}{sender_name}: {full_node_text}"`. -/
def transcriptLine (depth : Nat) (sender text : String) : String :=
  pyIndent depth ++ sender ++ ": " ++ text

/-- Concatenation of a list of strings (the value `"".join` computes on
all-string parts). -/
def concatAll : List String → String
  | [] => ""
  | s :: rest => s ++ concatAll rest

/-- A concrete recognized legacy card with three news items: cleanable
text, empty text, and text that is empty after removing `"[图片]"`. -/
def sampleCard : PyVal :=
  .dict [("app", .str "com.tencent.multimsg"),
         ("config", .dict [("forward", .num 1)]),
         ("meta", .dict [("detail", .dict [("news",
            .list [.dict [("text", .str "  foo[图片]  ")],
                   .dict [("text", .str "")],
                   .dict [("text", .str " [图片] ")]])])])]

/-- Concrete nodes with images before, inside, and after a nested
forward (exercises the interleaved image order of claim C5). -/
def c5Nodes : List PyVal :=
  [mkNode "A" [mkImageSeg "http://x/1.png",
               mkFwdSeg [mkNode "B" [mkTextSeg "hi", mkImageSeg "http://x/2.png"]],
               mkImageSeg "http://x/3.png"],
   mkNode "C" [mkImageSeg "http://x/4.png"]]

/-- Concrete forward-free nodes: text, whitespace-only text, and an
image-only node (exercises the line count of claim C6). -/
def c6Nodes : List PyVal :=
  [mkNode "A" [mkTextSeg "hi"], mkNode "B" [mkTextSeg "   "],
   mkNode "C" [mkImageSeg "http://x/9.png"]]

/-! ## Helper lemmas -/

theorem pyGet_dict (fs : List (String × PyVal)) (k : String) (dflt : PyVal) :
    pyGet (.dict fs) k dflt = .ok ((lookupField fs k).getD dflt) := rfl

theorem senderNameOf_mkNode (sender : String) (segs : List PyVal) :
    senderNameOf (mkNode sender segs) = .ok (.str sender) := rfl

theorem rawContentOf_mkNode : ∀ (sender : String) (segs : List PyVal), segs ≠ [] →
    rawContentOf (mkNode sender segs) = .ok (.list segs)
  | _, [], h => absurd rfl h
  | _, _ :: _, _ => rfl

theorem checkOnlyForward_len_ne_one : ∀ (l : List PyVal), l.length ≠ 1 →
    checkOnlyForward l = .ok false
  | [], _ => rfl
  | [_], h => absurd rfl h
  | _ :: _ :: _, _ => rfl

theorem pyStrip_empty : pyStrip "" = "" := rfl

theorem pyEqStr_of_eq_ne (v : PyVal) (a b : String)
    (h : pyEqStr v a = true) (hne : a ≠ b) : pyEqStr v b = false := by
  cases v <;> simp [pyEqStr] at h ⊢
  subst h
  exact hne

theorem empty_append_str (s : String) : "" ++ s = s := by
  cases s
  rfl

theorem concatAll_append : ∀ (a b : List String),
    concatAll (a ++ b) = concatAll a ++ concatAll b := by
  intro a b
  induction a with
  | nil => simp [concatAll, empty_append_str]
  | cons s rest ih => simp [concatAll, ih, String.append_assoc]

theorem concatAll_filter : ∀ (l : List String),
    concatAll (l.filter (fun s => !(s == ""))) = concatAll l
  | [] => rfl
  | s :: rest => by
    by_cases hs : s = ""
    · subst hs
      have h1 : List.filter (fun s => !(s == "")) ("" :: rest)
          = List.filter (fun s => !(s == "")) rest := rfl
      rw [h1, concatAll_filter rest]
      show concatAll rest = "" ++ concatAll rest
      rw [empty_append_str]
    · have hb : (s == "") = false := beq_eq_false_iff_ne.mpr hs
      have h1 : List.filter (fun s => !(s == "")) (s :: rest)
          = s :: List.filter (fun s => !(s == "")) rest := by
        simp [List.filter, hb]
      rw [h1]
      show s ++ concatAll (List.filter (fun s => !(s == "")) rest) = s ++ concatAll rest
      rw [concatAll_filter rest]

theorem joinParts_map_str : ∀ (l : List String),
    joinParts (l.map PyVal.str) = .ok (concatAll l) := by
  intro l
  induction l with
  | nil => rfl
  | cons s rest ih => simp [joinParts, concatAll, ih]

/-- A node consisting of a single valid forward segment recurses at
`depth + 1` and emits no line of its own (shared computation step). -/
theorem extract_singleForward (decode : String → Option PyVal) (fuel : Nat)
    (sender : String) (nested : List PyVal) (texts : List String)
    (imgs : List PyVal) (depth : Nat) :
    extractContentRecursively decode (fuel + 1) [mkNode sender [mkFwdSeg nested]] texts imgs depth
      = extractContentRecursively decode fuel nested texts imgs (depth + 1) := by
  cases h : extractContentRecursively decode fuel nested texts imgs (depth + 1) with
  | error e =>
    simp [extractContentRecursively, extractNodesGo, extractSegsF, mkNode, mkFwdSeg,
      senderNameOf, rawContentOf, parseContentChain, checkOnlyForward, pyGet, lookupField,
      pyEqStr, pyTruthy, joinParts, pyStrip_empty, h]
  | ok r =>
    simp [extractContentRecursively, extractNodesGo, extractSegsF, mkNode, mkFwdSeg,
      senderNameOf, rawContentOf, parseContentChain, checkOnlyForward, pyGet, lookupField,
      pyEqStr, pyTruthy, joinParts, pyStrip_empty, h]

/-- Processing a run of text segments only appends the truthy text
values to the node's part buffer. -/
theorem extractSegsF_textRun
    (recNodes : List PyVal → List String → List PyVal → Nat →
      Except PyErr (List String × List PyVal)) :
    ∀ (ts : List String) (rest parts : List PyVal) (texts : List String)
      (imgs : List PyVal) (depth : Nat),
      extractSegsF recNodes (ts.map mkTextSeg ++ rest) parts texts imgs depth
        = extractSegsF recNodes rest
            (parts ++ (ts.filter (fun s => !(s == ""))).map PyVal.str) texts imgs depth := by
  intro ts
  induction ts with
  | nil => intro rest parts texts imgs depth; simp
  | cons s ts ih =>
    intro rest parts texts imgs depth
    simp only [List.map_cons, List.cons_append]
    by_cases hs : s = ""
    · subst hs
      rw [show extractSegsF recNodes (mkTextSeg "" :: (ts.map mkTextSeg ++ rest)) parts texts imgs depth
            = extractSegsF recNodes (ts.map mkTextSeg ++ rest) parts texts imgs depth from rfl]
      rw [ih rest parts texts imgs depth]
      rfl
    · have hb : (s == "") = false := beq_eq_false_iff_ne.mpr hs
      rw [show extractSegsF recNodes (mkTextSeg s :: (ts.map mkTextSeg ++ rest)) parts texts imgs depth
            = extractSegsF recNodes (ts.map mkTextSeg ++ rest)
                (if pyTruthy (PyVal.str s) = true then parts ++ [PyVal.str s] else parts) texts imgs depth from rfl]
      have htr : pyTruthy (PyVal.str s) = true := by
        simp [pyTruthy, hb]
      rw [htr, if_pos rfl, ih]
      have h1 : List.filter (fun s => !(s == "")) (s :: ts)
          = s :: List.filter (fun s => !(s == "")) ts := by
        simp [List.filter, hb]
      rw [h1, List.map_cons, List.append_assoc]
      rfl

theorem extractSegsF_append
    (recNodes : List PyVal → List String → List PyVal → Nat →
      Except PyErr (List String × List PyVal))
    (hrec : ∀ ns (t t' : List String) (i i' : List PyVal) d,
      recNodes ns (t ++ t') (i ++ i') d
        = (recNodes ns t' i' d).map fun TI => (t ++ TI.1, i ++ TI.2)) :
    ∀ (segs p p' : List PyVal) (t t' : List String) (i i' : List PyVal) (d : Nat),
      extractSegsF recNodes segs (p ++ p') (t ++ t') (i ++ i') d
        = (extractSegsF recNodes segs p' t' i' d).map
            fun PTI => (p ++ PTI.1, t ++ PTI.2.1, i ++ PTI.2.2) := by
  intro segs
  induction segs with
  | nil => intro p p' t t' i i' d; rfl
  | cons seg rest ih =>
    intro p p' t t' i i' d
    cases seg with
    | dict sf =>
      simp only [extractSegsF, pyGet_dict]
      by_cases h1 : pyEqStr ((lookupField sf "type").getD PyVal.none) "text" = true
      · simp only [h1, if_true]
        cases hdat : pyGet ((lookupField sf "data").getD (.dict [])) "text" (.str "") with
        | error e => simp [hdat, Except.map]
        | ok tval =>
          simp only [hdat]
          cases htr : pyTruthy tval with
          | true =>
            simp only [htr, if_true]
            rw [List.append_assoc]
            exact ih p (p' ++ [tval]) t t' i i' d
          | false =>
            simp only [htr, Bool.false_eq_true, if_false]
            exact ih p p' t t' i i' d
      · simp only [h1, Bool.false_eq_true, if_false]
        by_cases h2 : pyEqStr ((lookupField sf "type").getD PyVal.none) "image" = true
        · simp only [h2, if_true]
          cases hdat : pyGet ((lookupField sf "data").getD (.dict [])) "url" .none with
          | error e => simp [hdat, Except.map]
          | ok uval =>
            simp only [hdat]
            cases htr : pyTruthy uval with
            | true =>
              simp only [htr, if_true]
              rw [List.append_assoc, List.append_assoc]
              exact ih p (p' ++ [.str "[图片]"]) t t' i (i' ++ [uval]) d
            | false =>
              simp only [htr, Bool.false_eq_true, if_false]
              exact ih p p' t t' i i' d
        · simp only [h2, Bool.false_eq_true, if_false]
          by_cases h3 : pyEqStr ((lookupField sf "type").getD PyVal.none) "forward" = true
          · simp only [h3, if_true]
            cases hdat : pyGet ((lookupField sf "data").getD (.dict [])) "content" .none with
            | error e => simp [hdat, Except.map]
            | ok nval =>
              simp only [hdat]
              cases nval with
              | list ns =>
                simp only []
                rw [hrec ns t t' i i' (d + 1)]
                cases hr : recNodes ns t' i' (d + 1) with
                | error e => simp [hr, Except.map]
                | ok TI =>
                  obtain ⟨T1, I1⟩ := TI
                  simp only [hr, Except.map]
                  exact ih p p' t T1 i I1 d
              | none =>
                rw [List.append_assoc]
                exact ih p (p' ++ [.str "[转发消息内容缺失或格式错误]"]) t t' i i' d
              | bool b =>
                rw [List.append_assoc]
                exact ih p (p' ++ [.str "[转发消息内容缺失或格式错误]"]) t t' i i' d
              | num n =>
                rw [List.append_assoc]
                exact ih p (p' ++ [.str "[转发消息内容缺失或格式错误]"]) t t' i i' d
              | str s =>
                rw [List.append_assoc]
                exact ih p (p' ++ [.str "[转发消息内容缺失或格式错误]"]) t t' i i' d
              | dict df =>
                rw [List.append_assoc]
                exact ih p (p' ++ [.str "[转发消息内容缺失或格式错误]"]) t t' i i' d
          · simp only [h3, Bool.false_eq_true, if_false]
            exact ih p p' t t' i i' d
    | none => exact ih p p' t t' i i' d
    | bool b => exact ih p p' t t' i i' d
    | num n => exact ih p p' t t' i i' d
    | str s => exact ih p p' t t' i i' d
    | list l => exact ih p p' t t' i i' d

theorem extractNodesGo_append
    (recSegs : List PyVal → List PyVal → List String → List PyVal → Nat →
      Except PyErr (List PyVal × List String × List PyVal))
    (decode : String → Option PyVal)
    (hrec : ∀ segs (t t' : List String) (i i' : List PyVal) d,
      recSegs segs [] (t ++ t') (i ++ i') d
        = (recSegs segs [] t' i' d).map fun PTI => (PTI.1, t ++ PTI.2.1, i ++ PTI.2.2)) :
    ∀ (nodes : List PyVal) (t t' : List String) (i i' : List PyVal) (d : Nat),
      extractNodesGo recSegs decode nodes (t ++ t') (i ++ i') d
        = (extractNodesGo recSegs decode nodes t' i' d).map
            fun TI => (t ++ TI.1, i ++ TI.2) := by
  intro nodes
  induction nodes with
  | nil => intro t t' i i' d; rfl
  | cons node rest ih =>
    intro t t' i i' d
    simp only [extractNodesGo]
    cases senderNameOf node with
    | error e => rfl
    | ok sn =>
      simp only []
      cases rawContentOf node with
      | error e => rfl
      | ok raw =>
        simp only []
        cases checkOnlyForward (parseContentChain decode raw) with
        | error e => rfl
        | ok hasOnly =>
          simp only []
          rw [hrec (parseContentChain decode raw) t t' i i' d]
          cases hr : recSegs (parseContentChain decode raw) [] t' i' d with
          | error e => rfl
          | ok PTI =>
            obtain ⟨P, T1, I1⟩ := PTI
            simp only [Except.map]
            cases joinParts P with
            | error e => rfl
            | ok joined =>
              simp only []
              by_cases hc : pyStrip joined ≠ "" ∧ hasOnly = false
              · simp only [if_pos hc]
                rw [List.append_assoc]
                exact ih t (T1 ++ [pyIndent d ++ pyStr sn ++ ": " ++ pyStrip joined]) i I1 d
              · simp only [if_neg hc]
                exact ih t T1 i I1 d

theorem extract_append (decode : String → Option PyVal) :
    ∀ (fuel : Nat) (nodes : List PyVal) (t t' : List String) (i i' : List PyVal) (d : Nat),
      extractContentRecursively decode fuel nodes (t ++ t') (i ++ i') d
        = (extractContentRecursively decode fuel nodes t' i' d).map
            fun TI => (t ++ TI.1, i ++ TI.2) := by
  intro fuel
  induction fuel with
  | zero => intros; rfl
  | succ fuel ih =>
    intro nodes t t' i i' d
    simp only [extractContentRecursively]
    refine extractNodesGo_append _ decode ?_ nodes t t' i i' d
    intro segs t2 t2' i2 i2' d2
    have h := extractSegsF_append (extractContentRecursively decode fuel) ih
      segs [] [] t2 t2' i2 i2' d2
    simpa using h

theorem specSegs_of_extract
    (recNodes : List PyVal → List String → List PyVal → Nat →
      Except PyErr (List String × List PyVal))
    (recI : List PyVal → List PyVal)
    (hrec : ∀ ns t i d T J, recNodes ns t i d = .ok (T, J) → J = i ++ recI ns) :
    ∀ (segs parts : List PyVal) (texts : List String) (imgs : List PyVal) (depth : Nat)
      (P : List PyVal) (T : List String) (J : List PyVal),
      extractSegsF recNodes segs parts texts imgs depth = .ok (P, T, J) →
      J = imgs ++ specImagesSegs recI segs := by
  intro segs
  induction segs with
  | nil =>
    intro parts texts imgs depth P T J h
    injection h with h1
    injection h1 with h2 h3
    injection h3 with h4 h5
    simp [specImagesSegs, ← h5]
  | cons seg rest ih =>
    intro parts texts imgs depth P T J h
    cases seg with
    | dict sf =>
      simp only [extractSegsF, pyGet_dict] at h
      simp only [specImagesSegs]
      by_cases h1 : pyEqStr ((lookupField sf "type").getD PyVal.none) "text" = true
      · rw [if_pos h1] at h
        rw [pyEqStr_of_eq_ne _ _ _ h1 (by decide), pyEqStr_of_eq_ne _ _ _ h1 (by decide)]
        simp only [Bool.false_eq_true, if_false]
        cases hdat : pyGet ((lookupField sf "data").getD (PyVal.dict [])) "text" (PyVal.str "") with
        | error e => rw [hdat] at h; exact nomatch h
        | ok t => rw [hdat] at h; exact ih _ _ _ _ _ _ _ h
      · rw [if_neg h1] at h
        by_cases h2 : pyEqStr ((lookupField sf "type").getD PyVal.none) "image" = true
        · rw [if_pos h2] at h
          rw [if_pos h2]
          cases hd : (lookupField sf "data").getD (PyVal.dict []) with
          | dict df =>
            rw [hd] at h
            simp only [pyGet_dict] at h
            simp only []
            cases htr : pyTruthy ((lookupField df "url").getD PyVal.none) with
            | true =>
              rw [htr, if_pos rfl] at h
              rw [if_pos rfl]
              have := ih _ _ _ _ _ _ _ h
              rw [this]
              simp [List.append_assoc]
            | false =>
              rw [htr] at h
              simp only [Bool.false_eq_true, if_false] at h ⊢
              exact ih _ _ _ _ _ _ _ h
          | none => rw [hd] at h; simp only [pyGet] at h; exact nomatch h
          | bool b => rw [hd] at h; simp only [pyGet] at h; exact nomatch h
          | num n => rw [hd] at h; simp only [pyGet] at h; exact nomatch h
          | str s => rw [hd] at h; simp only [pyGet] at h; exact nomatch h
          | list l => rw [hd] at h; simp only [pyGet] at h; exact nomatch h
        · rw [if_neg h2] at h
          rw [if_neg h2]
          by_cases h3 : pyEqStr ((lookupField sf "type").getD PyVal.none) "forward" = true
          · rw [if_pos h3] at h
            rw [if_pos h3]
            cases hd : (lookupField sf "data").getD (PyVal.dict []) with
            | dict df =>
              rw [hd] at h
              simp only [pyGet_dict] at h
              simp only []
              cases hc : (lookupField df "content").getD PyVal.none with
              | list ns =>
                rw [hc] at h
                simp only [] at h
                simp only []
                cases hr : recNodes ns texts imgs (depth + 1) with
                | error e => rw [hr] at h; exact nomatch h
                | ok TJ =>
                  obtain ⟨T1, J1⟩ := TJ
                  rw [hr] at h
                  simp only [] at h
                  have hJ1 : J1 = imgs ++ recI ns := hrec ns texts imgs (depth + 1) T1 J1 hr
                  have := ih _ _ _ _ _ _ _ h
                  rw [this, hJ1]
                  simp [List.append_assoc]
              | none => rw [hc] at h; simp only []; exact ih _ _ _ _ _ _ _ h
              | bool b => rw [hc] at h; simp only []; exact ih _ _ _ _ _ _ _ h
              | num n => rw [hc] at h; simp only []; exact ih _ _ _ _ _ _ _ h
              | str s => rw [hc] at h; simp only []; exact ih _ _ _ _ _ _ _ h
              | dict df2 => rw [hc] at h; simp only []; exact ih _ _ _ _ _ _ _ h
            | none => rw [hd] at h; simp only [pyGet] at h; exact nomatch h
            | bool b => rw [hd] at h; simp only [pyGet] at h; exact nomatch h
            | num n => rw [hd] at h; simp only [pyGet] at h; exact nomatch h
            | str s => rw [hd] at h; simp only [pyGet] at h; exact nomatch h
            | list l => rw [hd] at h; simp only [pyGet] at h; exact nomatch h
          · rw [if_neg h3] at h
            rw [if_neg h3]
            exact ih _ _ _ _ _ _ _ h
    | none => exact ih _ _ _ _ _ _ _ h
    | bool b => exact ih _ _ _ _ _ _ _ h
    | num n => exact ih _ _ _ _ _ _ _ h
    | str s => exact ih _ _ _ _ _ _ _ h
    | list l => exact ih _ _ _ _ _ _ _ h

theorem specNodes_of_extract
    (recSegs : List PyVal → List PyVal → List String → List PyVal → Nat →
      Except PyErr (List PyVal × List String × List PyVal))
    (recI2 : List PyVal → List PyVal)
    (decode : String → Option PyVal)
    (hrec : ∀ segs parts (t : List String) (i : List PyVal) d P T J,
      recSegs segs parts t i d = .ok (P, T, J) → J = i ++ recI2 segs) :
    ∀ (nodes : List PyVal) (texts : List String) (imgs : List PyVal) (depth : Nat)
      (T : List String) (J : List PyVal),
      extractNodesGo recSegs decode nodes texts imgs depth = .ok (T, J) →
      J = imgs ++ specImagesNodesGo recI2 decode nodes := by
  intro nodes
  induction nodes with
  | nil =>
    intro texts imgs depth T J h
    injection h with h1
    injection h1 with h2 h3
    simp [specImagesNodesGo, ← h3]
  | cons node rest ih =>
    intro texts imgs depth T J h
    simp only [extractNodesGo] at h
    simp only [specImagesNodesGo]
    cases hs : senderNameOf node with
    | error e => rw [hs] at h; exact nomatch h
    | ok sn =>
      rw [hs] at h
      simp only [] at h
      cases hr : rawContentOf node with
      | error e => rw [hr] at h; exact nomatch h
      | ok raw =>
        rw [hr] at h
        simp only [] at h
        have hchain : chainOfTotal decode node = parseContentChain decode raw := by
          simp [chainOfTotal, hr]
        rw [hchain]
        cases hco : checkOnlyForward (parseContentChain decode raw) with
        | error e => rw [hco] at h; exact nomatch h
        | ok b =>
          rw [hco] at h
          simp only [] at h
          cases hsegs : recSegs (parseContentChain decode raw) [] texts imgs depth with
          | error e => rw [hsegs] at h; exact nomatch h
          | ok PTI =>
            obtain ⟨P, T1, I1⟩ := PTI
            rw [hsegs] at h
            simp only [] at h
            have hI1 : I1 = imgs ++ recI2 (parseContentChain decode raw) :=
              hrec _ _ _ _ _ _ _ _ hsegs
            cases hj : joinParts P with
            | error e => rw [hj] at h; exact nomatch h
            | ok joined =>
              rw [hj] at h
              simp only [] at h
              have := ih _ _ _ _ _ h
              rw [this, hI1]
              simp [List.append_assoc]

theorem specImages_of_extract (decode : String → Option PyVal) :
    ∀ (fuel : Nat) (nodes : List PyVal) (texts : List String) (imgs : List PyVal)
      (depth : Nat) (T : List String) (J : List PyVal),
      extractContentRecursively decode fuel nodes texts imgs depth = .ok (T, J) →
      J = imgs ++ specImages decode fuel nodes := by
  intro fuel
  induction fuel with
  | zero => intro nodes texts imgs depth T J h; exact nomatch h
  | succ fuel ih =>
    intro nodes texts imgs depth T J h
    simp only [extractContentRecursively] at h
    simp only [specImages]
    exact specNodes_of_extract _ _ decode
      (fun segs parts t i d P T2 J2 hseg =>
        specSegs_of_extract (extractContentRecursively decode fuel)
          (specImages decode fuel)
          (fun ns t2 i2 d2 T3 J3 hr => ih ns t2 i2 d2 T3 J3 hr)
          segs parts t i d P T2 J2 hseg)
      nodes texts imgs depth T J h

theorem checkOnlyForward_noForward : ∀ (segs : List PyVal) (b : Bool),
    segsNoForward segs = true → checkOnlyForward segs = .ok b → b = false
  | [], b, _, h => by injection h with h1; exact h1.symm
  | [seg], b, hnf, h => by
    cases seg with
    | dict sf =>
      simp only [segsNoForward, List.all_cons, List.all_nil, Bool.and_true] at hnf
      simp only [checkOnlyForward, pyGet_dict] at h
      injection h with h1
      rw [← h1]
      simpa using hnf
    | none => simp [checkOnlyForward, pyGet] at h
    | bool b2 => simp [checkOnlyForward, pyGet] at h
    | num n => simp [checkOnlyForward, pyGet] at h
    | str s => simp [checkOnlyForward, pyGet] at h
    | list l => simp [checkOnlyForward, pyGet] at h
  | _ :: _ :: _, b, _, h => by injection h with h1; exact h1.symm

theorem extractSegsF_noForward
    (recNodes : List PyVal → List String → List PyVal → Nat →
      Except PyErr (List String × List PyVal)) :
    ∀ (segs : List PyVal), segsNoForward segs = true →
      ∀ (parts : List PyVal) (texts : List String) (imgs : List PyVal) (depth : Nat),
        extractSegsF recNodes segs parts texts imgs depth
          = (match nodeScanNF segs with
             | .ok PQ => .ok (parts ++ PQ.1, texts, imgs ++ PQ.2)
             | .error e => .error e) := by
  intro segs
  induction segs with
  | nil => intro _ parts texts imgs depth; simp [extractSegsF, nodeScanNF]
  | cons seg rest ih =>
    intro hnf parts texts imgs depth
    cases seg with
    | dict sf =>
      simp only [segsNoForward, List.all_cons, Bool.and_eq_true] at hnf
      obtain ⟨hhead, hrest⟩ := hnf
      have ihr := ih hrest
      simp only [extractSegsF, nodeScanNF, pyGet_dict]
      by_cases h1 : pyEqStr ((lookupField sf "type").getD PyVal.none) "text" = true
      · rw [if_pos h1, if_pos h1]
        cases hdat : pyGet ((lookupField sf "data").getD (PyVal.dict [])) "text" (PyVal.str "") with
        | error e => rfl
        | ok t =>
          simp only []
          simp only [ihr]
          cases hnp : nodeScanNF rest with
          | error e => simp
          | ok PQ =>
            simp only []
            cases htr : pyTruthy t with
            | true => simp [List.append_assoc]
            | false => simp
      · rw [if_neg h1, if_neg h1]
        by_cases h2 : pyEqStr ((lookupField sf "type").getD PyVal.none) "image" = true
        · rw [if_pos h2, if_pos h2]
          cases hdat : pyGet ((lookupField sf "data").getD (PyVal.dict [])) "url" PyVal.none with
          | error e => rfl
          | ok u =>
            simp only []
            simp only [ihr]
            cases hnp : nodeScanNF rest with
            | error e =>
              cases htr : pyTruthy u with
              | true => simp
              | false => simp
            | ok PQ =>
              simp only []
              cases htr : pyTruthy u with
              | true => simp [List.append_assoc]
              | false => simp
        · rw [if_neg h2, if_neg h2]
          have h3 : pyEqStr ((lookupField sf "type").getD PyVal.none) "forward" = false := by
            simpa using hhead
          rw [h3]
          simp only [Bool.false_eq_true, if_false]
          simp only [ihr]
    | none =>
      simp only [segsNoForward, List.all_cons, Bool.and_eq_true] at hnf
      simp only [extractSegsF, nodeScanNF]
      simp only [ih hnf.2]
    | bool b =>
      simp only [segsNoForward, List.all_cons, Bool.and_eq_true] at hnf
      simp only [extractSegsF, nodeScanNF]
      simp only [ih hnf.2]
    | num n =>
      simp only [segsNoForward, List.all_cons, Bool.and_eq_true] at hnf
      simp only [extractSegsF, nodeScanNF]
      simp only [ih hnf.2]
    | str s =>
      simp only [segsNoForward, List.all_cons, Bool.and_eq_true] at hnf
      simp only [extractSegsF, nodeScanNF]
      simp only [ih hnf.2]
    | list l =>
      simp only [segsNoForward, List.all_cons, Bool.and_eq_true] at hnf
      simp only [extractSegsF, nodeScanNF]
      simp only [ih hnf.2]

theorem extractNodesGo_lineCount
    (recNodes : List PyVal → List String → List PyVal → Nat →
      Except PyErr (List String × List PyVal))
    (decode : String → Option PyVal) :
    ∀ (nodes : List PyVal), (∀ node ∈ nodes, chainHasNoForward decode node = true) →
      ∀ (texts : List String) (imgs : List PyVal) (depth : Nat) (T : List String)
        (I : List PyVal),
        extractNodesGo (extractSegsF recNodes) decode nodes texts imgs depth = .ok (T, I) →
        T.length = texts.length + nodes.countP (fun n => nodeEmits decode n) := by
  intro nodes
  induction nodes with
  | nil =>
    intro _ texts imgs depth T I h
    injection h with h1
    injection h1 with h2 h3
    simp [← h2]
  | cons node rest ih =>
    intro hall texts imgs depth T I h
    have hhead : chainHasNoForward decode node = true := hall node (List.mem_cons_self node rest)
    have hrest : ∀ n ∈ rest, chainHasNoForward decode n = true :=
      fun n hn => hall n (List.mem_cons_of_mem node hn)
    simp only [extractNodesGo] at h
    cases hs : senderNameOf node with
    | error e => rw [hs] at h; exact nomatch h
    | ok sn =>
      rw [hs] at h
      simp only [] at h
      cases hr : rawContentOf node with
      | error e => rw [hr] at h; exact nomatch h
      | ok raw =>
        rw [hr] at h
        simp only [] at h
        have hnf : segsNoForward (parseContentChain decode raw) = true := by
          have h2 := hhead
          simp only [chainHasNoForward, hr] at h2
          exact h2
        cases hco : checkOnlyForward (parseContentChain decode raw) with
        | error e => rw [hco] at h; exact nomatch h
        | ok b =>
          have hb : b = false := checkOnlyForward_noForward _ b hnf hco
          subst hb
          rw [hco] at h
          simp only [] at h
          rw [extractSegsF_noForward recNodes _ hnf] at h
          cases hnp : nodeScanNF (parseContentChain decode raw) with
          | error e => rw [hnp] at h; exact nomatch h
          | ok PQ =>
            rw [hnp] at h
            simp only [List.nil_append] at h
            cases hj : joinParts PQ.1 with
            | error e => rw [hj] at h; exact nomatch h
            | ok j =>
              rw [hj] at h
              simp only [] at h
              have hemit : nodeEmits decode node = decide (pyStrip j ≠ "") := by
                simp [nodeEmits, nodeStrippedText, hr, hnp, hj]
              rw [List.countP_cons]
              by_cases hemp : pyStrip j = ""
              · rw [if_neg (fun hc => hc.1 hemp)] at h
                have hlen := ih hrest texts (imgs ++ PQ.2) depth T I h
                rw [hlen, hemit]
                simp [hemp]
              · rw [if_pos ⟨hemp, trivial⟩] at h
                have hlen := ih hrest
                  (texts ++ [pyIndent depth ++ pyStr sn ++ ": " ++ pyStrip j]) (imgs ++ PQ.2) depth T I h
                rw [hlen, hemit]
                simp [hemp]
                omega

theorem collectNews_eq_filterMap :
    ∀ (items : List PyVal), newsWf items = true →
      collectNewsTexts items = items.filterMap specCleanNewsItem := by
  intro items
  induction items with
  | nil => intro _; rfl
  | cons item rest ih =>
    intro h
    cases item with
    | dict fields =>
      simp only [newsWf, Bool.and_eq_true] at h
      obtain ⟨h1, h2⟩ := h
      simp only [collectNewsTexts, specCleanNewsItem, List.filterMap]
      cases ht : (lookupField fields "text").getD .none with
      | str s =>
        by_cases hs : s = ""
        · simp [ht, hs, ih h2]
        · by_cases hc : pyStrip (pyRemoveAll (pyStrip s) "[图片]") = ""
          · simp [ht, hs, hc, ih h2]
          · simp [ht, hs, hc, ih h2]
      | none => simp [ht, pyTruthy, ih h2]
      | bool b =>
        rw [ht] at h1
        cases b with
        | false => simp [ht, pyTruthy, ih h2]
        | true => simp [pyTruthy] at h1
      | num n =>
        rw [ht] at h1
        by_cases hn : n = 0
        · simp [ht, pyTruthy, hn, ih h2]
        · simp [pyTruthy, hn] at h1
      | list xs =>
        rw [ht] at h1
        cases xs with
        | nil => simp [ht, pyTruthy, ih h2]
        | cons a b => simp [pyTruthy] at h1
      | dict ds =>
        rw [ht] at h1
        cases ds with
        | nil => simp [ht, pyTruthy, ih h2]
        | cons a b => simp [pyTruthy] at h1
    | _ => simp [newsWf] at h

/-! ## Claim theorems -/

/-- Claim C1 (amended): when JSON-decoding a string `raw_content` succeeds
but the decoded value is not a list, the normalizer yields the *empty*
segment list — not a single literal text segment.  The literal-text
fallback applies only on decode failure (lines 38-48 of `main.py`). -/
theorem c1_nonlist_decode_yields_empty_chain (decode : String → Option PyVal)
    (s : String) (v : PyVal)
    (hdec : decode s = some v) (hnl : ∀ l, v ≠ PyVal.list l) :
    parseContentChain decode (.str s) = [] := by
  simp only [parseContentChain]
  rw [hdec]
  cases v <;> first | rfl | exact absurd rfl (hnl _)

/-- Claim C1 witness: `json.loads "42"` succeeds with the non-list `42`,
and the normalizer yields the empty chain. -/
theorem c1_nonlist_decode_yields_empty_chain_witness :
    decode42 "42" = some (.num 42) ∧ parseContentChain decode42 (.str "42") = [] :=
  ⟨rfl, c1_nonlist_decode_yields_empty_chain decode42 "42" (.num 42) rfl
    (fun _ h => nomatch h)⟩

/-- Claim C1 counterexample: for a node whose `raw_content` is the string
`"42"` (which decodes to the non-list `42`), the normalizer does NOT
produce the single literal text segment the claim requires, and the
node's extraction yields no transcript line at all instead of the line
`"A: 42"`. -/
theorem c1_counterexample :
    parseContentChain decode42 (.str "42")
        ≠ [.dict [("type", .str "text"), ("data", .dict [("text", .str "42")])]] ∧
    extractForwardContent decode42 1
        [.dict [("sender", .dict [("nickname", .str "A")]), ("message", .str "42")]]
      = .ok ([], []) ∧
    (Except.ok ([], []) : Except PyErr (List String × List PyVal)) ≠ .ok (["A: 42"], []) := by
  refine ⟨?_, rfl, ?_⟩
  · intro h
    exact nomatch h
  · intro h
    injection h with h1
    injection h1 with h2 h3
    exact nomatch h2

/-- Claim C2 (code divergence): the source has no bounded-depth or
bounded-node-count guard — for every nesting depth `d` the extractor
fully recurses through a depth-`d` pure-forward chain and returns the
innermost transcript line (a non-empty result), rather than aborting
with an empty result at any bound. -/
theorem c2_no_recursion_guard (decode : String → Option PyVal) :
    ∀ (d depth : Nat) (texts : List String) (imgs : List PyVal),
      extractContentRecursively decode (d + 1) [deepChain d] texts imgs depth
        = .ok (texts ++ [transcriptLine (depth + d) "S" "x"], imgs) := by
  intro d
  induction d with
  | zero => intro depth texts imgs; rfl
  | succ d ih =>
    intro depth texts imgs
    have step : deepChain (d + 1) = mkNode "S" [mkFwdSeg [deepChain d]] := rfl
    rw [step, extract_singleForward, ih]
    have harith : depth + 1 + d = depth + (d + 1) := by omega
    rw [harith]

/-- Claim C3 (amended): a node's own transcript line is appended only
after its whole segment list has been processed, so the lines of a
nested forward always appear *before* the parent node's own line — at
one deeper indent — regardless of where the forward segment sits among
the parent's segments (here: after `pre` and before `post` text
segments), with sibling order otherwise preserved. -/
theorem c3_nested_lines_precede_parent_line (decode : String → Option PyVal)
    (fuel : Nat) (sender : String) (pre post : List String) (nested : List PyVal)
    (texts T : List String) (imgs I : List PyVal) (depth : Nat)
    (hN : extractContentRecursively decode fuel nested texts imgs (depth + 1) = .ok (T, I))
    (hne : pyStrip (concatAll (pre ++ post)) ≠ "") :
    extractContentRecursively decode (fuel + 1)
        [mkNode sender (pre.map mkTextSeg ++ mkFwdSeg nested :: post.map mkTextSeg)]
        texts imgs depth
      = .ok (T ++ [transcriptLine depth sender (pyStrip (concatAll (pre ++ post)))], I) := by
  have hnil : pre ++ post ≠ [] := by
    intro h
    apply hne
    rw [h]
    rfl
  have hlen0 : (pre ++ post).length ≠ 0 := by
    intro h
    exact hnil (List.length_eq_zero.mp h)
  have hlen : (pre.map mkTextSeg ++ mkFwdSeg nested :: post.map mkTextSeg).length ≠ 1 := by
    simp only [List.length_append, List.length_map, List.length_cons]
    simp only [List.length_append] at hlen0
    omega
  have hsne : (pre.map mkTextSeg ++ mkFwdSeg nested :: post.map mkTextSeg) ≠ [] := by
    intro h
    have h2 := congrArg List.length h
    simp only [List.length_append, List.length_map, List.length_cons, List.length_nil] at h2
    omega
  have hco : checkOnlyForward (pre.map mkTextSeg ++ mkFwdSeg nested :: post.map mkTextSeg)
      = .ok false := checkOnlyForward_len_ne_one _ hlen
  simp only [extractContentRecursively, extractNodesGo, senderNameOf_mkNode,
    rawContentOf_mkNode sender _ hsne, parseContentChain, hco]
  rw [extractSegsF_textRun]
  simp only [List.nil_append]
  rw [show extractSegsF (extractContentRecursively decode fuel)
        (mkFwdSeg nested :: post.map mkTextSeg)
        ((pre.filter (fun s => !(s == ""))).map PyVal.str) texts imgs depth
      = (match extractContentRecursively decode fuel nested texts imgs (depth + 1) with
         | Except.error e => Except.error e
         | Except.ok (t1, i1) =>
           extractSegsF (extractContentRecursively decode fuel) (post.map mkTextSeg)
             ((pre.filter (fun s => !(s == ""))).map PyVal.str) t1 i1 depth) from rfl]
  rw [hN]
  simp only []
  rw [show (List.map mkTextSeg post) = List.map mkTextSeg post ++ [] from (List.append_nil _).symm]
  rw [extractSegsF_textRun]
  simp only [extractSegsF]
  rw [← List.map_append, joinParts_map_str]
  simp only []
  have hj : concatAll (pre.filter (fun s => !(s == "")) ++ post.filter (fun s => !(s == "")))
      = concatAll (pre ++ post) := by
    rw [concatAll_append, concatAll_filter, concatAll_filter, ← concatAll_append]
  rw [hj]
  rw [if_pos ⟨hne, trivial⟩]
  rfl

/-- Claim C3 witness: sender `"A"` with text `"a"` before the forward
containing `B: x`; the nested line precedes the parent's line. -/
theorem c3_nested_lines_precede_parent_line_witness :
    extractContentRecursively decode0 2
        [mkNode "A" (["a"].map mkTextSeg ++ mkFwdSeg [mkNode "B" [mkTextSeg "x"]]
          :: ([] : List String).map mkTextSeg)] [] [] 0
      = .ok (["  B: x", "A: a"], []) :=
  c3_nested_lines_precede_parent_line decode0 1 "A" ["a"] []
    [mkNode "B" [mkTextSeg "x"]] [] ["  B: x"] [] [] 0 rfl (by decide)

/-- Claim C3 counterexample: for a node whose segments are the text
`"a"` followed by a forward wrapping `B: x`, the claim places the
nested line after the parent's line (`["A: a", "  B: x"]`, at the point
of the forward segment), but the code emits the nested lines first. -/
theorem c3_counterexample :
    extractForwardContent decode0 2
        [mkNode "A" [mkTextSeg "a", mkFwdSeg [mkNode "B" [mkTextSeg "x"]]]]
      = .ok (["  B: x", "A: a"], []) ∧
    (["  B: x", "A: a"] : List String) ≠ ["A: a", "  B: x"] :=
  ⟨rfl, by decide⟩

/-- Claim C4: a node whose normalized segment list is exactly one valid
forward segment is a pure forward container: extraction of that node
emits no line for the node itself and equals the recursive extraction
of the nested nodes at `depth + 1`, into the same accumulators. -/
theorem c4_pure_forward_container_suppression (decode : String → Option PyVal)
    (fuel : Nat) (node sn raw seg dat : PyVal) (nested : List PyVal)
    (texts : List String) (imgs : List PyVal) (depth : Nat)
    (hs : senderNameOf node = .ok sn)
    (hr : rawContentOf node = .ok raw)
    (hc : parseContentChain decode raw = [seg])
    (ht : pyGet seg "type" .none = .ok (.str "forward"))
    (hd : pyGet seg "data" (.dict []) = .ok dat)
    (hn : pyGet dat "content" .none = .ok (.list nested)) :
    extractContentRecursively decode (fuel + 1) [node] texts imgs depth
      = extractContentRecursively decode fuel nested texts imgs (depth + 1) := by
  obtain ⟨sf, rfl⟩ : ∃ sf, seg = .dict sf := by
    cases seg <;> simp [pyGet] at ht ⊢
  cases h : extractContentRecursively decode fuel nested texts imgs (depth + 1) with
  | error e =>
    simp [extractContentRecursively, extractNodesGo, extractSegsF, hs, hr, hc,
      checkOnlyForward, ht, hd, hn, pyEqStr, joinParts, pyStrip_empty, h]
  | ok r =>
    simp [extractContentRecursively, extractNodesGo, extractSegsF, hs, hr, hc,
      checkOnlyForward, ht, hd, hn, pyEqStr, joinParts, pyStrip_empty, h]

/-- Claim C4 witness: a container around `B: world` extracts exactly as
its nested list does at depth 1, with no line for the container. -/
theorem c4_pure_forward_container_suppression_witness :
    extractContentRecursively decode0 2
        [mkNode "A" [mkFwdSeg [mkNode "B" [mkTextSeg "world"]]]] [] [] 0
      = extractContentRecursively decode0 1 [mkNode "B" [mkTextSeg "world"]] [] [] 1 :=
  c4_pure_forward_container_suppression decode0 1 _ _ _ _ _ _ [] [] 0
    rfl rfl rfl rfl rfl rfl

/-- Claim C5: on every successful extraction, the collected image URLs
are exactly `specImages` — the spec's depth-first, left-to-right image
order, with a nested forward's images spliced in at the position of the
forward segment. -/
theorem c5_image_order_dfs (decode : String → Option PyVal) (fuel : Nat)
    (nodes : List PyVal) (T : List String) (I : List PyVal)
    (h : extractForwardContent decode fuel nodes = .ok (T, I)) :
    I = specImages decode fuel nodes := by
  have h2 := specImages_of_extract decode fuel nodes [] [] 0 T I h
  simpa using h2

/-- Claim C5 witness: images before, inside, and after a nested forward
come out interleaved in encounter order. -/
theorem c5_image_order_dfs_witness :
    extractForwardContent decode0 2 c5Nodes
      = .ok (["  B: hi[图片]", "A: [图片][图片]", "C: [图片]"],
             [.str "http://x/1.png", .str "http://x/2.png", .str "http://x/3.png",
              .str "http://x/4.png"]) ∧
    ([.str "http://x/1.png", .str "http://x/2.png", .str "http://x/3.png",
      .str "http://x/4.png"] : List PyVal) = specImages decode0 2 c5Nodes :=
  ⟨rfl, c5_image_order_dfs decode0 2 c5Nodes _ _ rfl⟩

/-- Claim C6: for a node list whose normalized chains contain no forward
segment, a successful extraction produces exactly one transcript line
per node whose accumulated text is non-empty after stripping. -/
theorem c6_line_count_no_forward (decode : String → Option PyVal) (fuel : Nat)
    (nodes : List PyVal) (T : List String) (I : List PyVal)
    (hnf : ∀ node ∈ nodes, chainHasNoForward decode node = true)
    (hok : extractForwardContent decode fuel nodes = .ok (T, I)) :
    T.length = nodes.countP (fun n => nodeEmits decode n) := by
  cases fuel with
  | zero => exact nomatch hok
  | succ fuel =>
    have h := extractNodesGo_lineCount (extractContentRecursively decode fuel) decode
      nodes hnf [] [] 0 T I hok
    simpa using h

/-- Claim C6 witness: three forward-free nodes (text, whitespace-only,
image-only) yield two lines — matching the two emitting nodes. -/
theorem c6_line_count_no_forward_witness :
    extractForwardContent decode0 1 c6Nodes
      = .ok (["A: hi", "C: [图片]"], [.str "http://x/9.png"]) ∧
    (["A: hi", "C: [图片]"] : List String).length
      = c6Nodes.countP (fun n => nodeEmits decode0 n) :=
  ⟨rfl, c6_line_count_no_forward decode0 1 c6Nodes ["A: hi", "C: [图片]"]
    [.str "http://x/9.png"] (by decide) rfl⟩

/-- Claim C7: a decoded legacy-card payload whose `app` identifier or
forward-config flag does not match the recognized constants yields the
"not a card" outcome — no extracted texts and no images.  The model is
a total function: the Python exceptions on these paths are caught by
the surrounding handlers with nothing extracted, so no exception
reaches the caller. -/
theorem c7_legacy_card_negative_match (j : PyVal)
    (h : cardAppMatches j = false ∨ cardForwardFlagMatches j = false) :
    legacyCardResult j = ([], []) := by
  have hm : isMultiMsgCard j = false := by
    unfold isMultiMsgCard
    cases h with
    | inl h => simp [h]
    | inr h => simp [h]
  simp [legacyCardResult, legacyCardTexts, hm]

/-- Claim C7 witness: a payload with the wrong `app` identifier. -/
theorem c7_legacy_card_negative_match_witness :
    cardAppMatches (.dict [("app", .str "com.tencent.structmsg")]) = false ∧
    legacyCardResult (.dict [("app", .str "com.tencent.structmsg")]) = ([], []) :=
  ⟨rfl, c7_legacy_card_negative_match _ (Or.inl rfl)⟩

/-- Claim C8: for a recognized legacy card with well-formed news items,
the extracted texts are exactly the spec's cleaning pipeline — strip,
remove `"[图片]"`, strip again, keep only non-empty — applied to each
item in order, and the legacy path contributes no image URL. -/
theorem c8_legacy_card_text_cleaning (j : PyVal) (items : List PyVal)
    (happ : isMultiMsgCard j = true) (hnews : newsItemsOf j = PyVal.list items)
    (hwf : newsWf items = true) :
    legacyCardResult j = (items.filterMap specCleanNewsItem, []) := by
  simp [legacyCardResult, legacyCardTexts, happ, hnews, collectNews_eq_filterMap items hwf]

/-- Claim C8 witness: the sample card's three items clean to `["foo"]`
and no images. -/
theorem c8_legacy_card_text_cleaning_witness :
    newsWf [.dict [("text", .str "  foo[图片]  ")], .dict [("text", .str "")],
            .dict [("text", .str " [图片] ")]] = true ∧
    legacyCardResult sampleCard = (["foo"], []) :=
  ⟨rfl, (c8_legacy_card_text_cleaning sampleCard _ rfl rfl rfl).trans rfl⟩

/-- Claim C9: extraction is a pure function of the input node list —
re-running it with fresh empty accumulators gives the identical pair,
and running it into arbitrary accumulators only appends the same
fresh-run result after them. -/
theorem c9_extraction_deterministic (decode : String → Option PyVal) (fuel : Nat)
    (nodes : List PyVal) :
    (extractForwardContent decode fuel nodes = extractForwardContent decode fuel nodes) ∧
    ∀ (texts : List String) (imgs : List PyVal) (depth : Nat),
      extractContentRecursively decode fuel nodes texts imgs depth
        = (extractContentRecursively decode fuel nodes [] [] depth).map
            fun TI => (texts ++ TI.1, imgs ++ TI.2) := by
  refine ⟨rfl, fun texts imgs depth => ?_⟩
  have h := extract_append decode fuel nodes texts [] imgs [] depth
  simpa using h

/-- Claim C10: an image segment whose `url` is absent or falsy, and a
text segment whose `text` is falsy, contribute nothing — no image URL,
no `"[图片]"` placeholder, no text part: the segment step equals the
step over the remaining segments unchanged. -/
theorem c10_falsy_url_and_empty_text_contribute_nothing :
    (∀ (recNodes : List PyVal → List String → List PyVal → Nat →
        Except PyErr (List String × List PyVal))
       (sf : List (String × PyVal)) (rest parts : List PyVal) (texts : List String)
       (imgs : List PyVal) (depth : Nat) (dat u : PyVal),
        pyGet (PyVal.dict sf) "type" .none = .ok (.str "image") →
        pyGet (PyVal.dict sf) "data" (.dict []) = .ok dat →
        pyGet dat "url" .none = .ok u →
        pyTruthy u = false →
        extractSegsF recNodes (PyVal.dict sf :: rest) parts texts imgs depth
          = extractSegsF recNodes rest parts texts imgs depth) ∧
    (∀ (recNodes : List PyVal → List String → List PyVal → Nat →
        Except PyErr (List String × List PyVal))
       (sf : List (String × PyVal)) (rest parts : List PyVal) (texts : List String)
       (imgs : List PyVal) (depth : Nat) (dat t : PyVal),
        pyGet (PyVal.dict sf) "type" .none = .ok (.str "text") →
        pyGet (PyVal.dict sf) "data" (.dict []) = .ok dat →
        pyGet dat "text" (.str "") = .ok t →
        pyTruthy t = false →
        extractSegsF recNodes (PyVal.dict sf :: rest) parts texts imgs depth
          = extractSegsF recNodes rest parts texts imgs depth) := by
  constructor
  · intro recNodes sf rest parts texts imgs depth dat u hty hdat hu htr
    simp [extractSegsF, hty, hdat, hu, htr, pyEqStr]
  · intro recNodes sf rest parts texts imgs depth dat t hty hdat ht htr
    simp [extractSegsF, hty, hdat, ht, htr, pyEqStr]

/-- Claim C10 witness: an image segment with no `url` key and a text
segment with empty text are both exact no-ops. -/
theorem c10_falsy_url_and_empty_text_contribute_nothing_witness :
    extractSegsF (extractContentRecursively decode0 1)
        [.dict [("type", .str "image"), ("data", .dict [])]] [] [] [] 0
      = extractSegsF (extractContentRecursively decode0 1) [] [] [] [] 0 ∧
    extractSegsF (extractContentRecursively decode0 1)
        [.dict [("type", .str "text"), ("data", .dict [("text", .str "")])]] [] [] [] 0
      = extractSegsF (extractContentRecursively decode0 1) [] [] [] [] 0 :=
  ⟨c10_falsy_url_and_empty_text_contribute_nothing.1 _ _ _ _ _ _ _ _ _ rfl rfl rfl rfl,
   c10_falsy_url_and_empty_text_contribute_nothing.2 _ _ _ _ _ _ _ _ _ rfl rfl rfl rfl⟩
